import Mathlib

/-!
Shallow embedding of the ingestion-and-deduplication pipeline of the
Metal Info backend (apps `metal_news` and `metal_prices`), together with
theorems checking the natural-language specification against it.

The embedding follows the Python source:
* `src/metal_news/api/v1/services.py` — `NewsService` (`_fetch_rss_feed`,
  `fetch_and_store_news`, `_process_and_store`, `get_news_by_source`);
* `src/metal_news/api/v1/views.py` — `FetchMetalNewsView.post`;
* `src/metal_news/signals.py` — `update_search_vector`;
* `src/metal_prices/api/v1/services.py` — `MetalPriceService._process_and_store`.

The relational store is modelled as a list of rows.  Whether a
`MetalNews.objects.create` call succeeds, raises `IntegrityError`, or raises
some other exception depends on the environment (e.g. a concurrent inserter);
an oracle of type `StoreOracle` decides it per candidate.
-/

/-- A candidate / persisted news article (`metal_news.models.MetalNews`
content fields; the `search_vector` column is modelled separately). -/
structure Article where
  title : String
  description : String
  url : String
  source : String
  published_at : Int
deriving Repr, DecidableEq

/-- The outcome the environment assigns to a `MetalNews.objects.create` call:
it succeeds, raises `IntegrityError` (e.g. a concurrent inserter won the
race on the unique `url` constraint), or raises some other exception
(URL too long, bad encoding, ...). -/
inductive StoreEvent where
  | ok
  | integrityError
  | otherError
deriving Repr, DecidableEq

/-- Errors the store can raise from `create`, as caught by
`NewsService._process_and_store`: `IntegrityError` versus any other
exception. -/
inductive StoreError where
  | integrity
  | other
deriving Repr, DecidableEq

/-- Environment oracle deciding the fate of each `create` call. -/
abbrev StoreOracle : Type := Article → StoreEvent

/-- The news database: the list of persisted `MetalNews` rows. -/
abbrev NewsDB : Type := List Article

/-- Urls of the persisted rows. -/
def urlsOf (db : NewsDB) : List String := db.map Article.url

/-- `MetalNews.objects.filter(url=url).exists()`. -/
def urlExists (db : NewsDB) (url : String) : Bool :=
  db.any (fun b => b.url == url)

/-- Body of the `try` block of `NewsService._process_and_store` for one
candidate: check existence by url; if present, count as skipped; otherwise
attempt `MetalNews.objects.create`, which the oracle may let succeed or make
raise.  Returns `(insertedDelta, skippedDelta, db)` on normal completion. -/
def storeOneAttempt (ev : StoreOracle) (db : NewsDB) (a : Article) :
    Except StoreError (Nat × Nat × NewsDB) :=
  if urlExists db a.url then
    Except.ok (0, 1, db)
  else
    match ev a with
    | StoreEvent.ok => Except.ok (1, 0, db ++ [a])
    | StoreEvent.integrityError => Except.error StoreError.integrity
    | StoreEvent.otherError => Except.error StoreError.other

/-- One candidate of `NewsService._process_and_store` with its exception
handlers: `IntegrityError` is caught and counted as skipped, any other
exception is caught and the candidate is dropped without touching either
counter; `transaction.atomic` rolls the row back, so the database is
unchanged on both error paths. -/
def handleStoreOne (ev : StoreOracle) (db : NewsDB) (a : Article) :
    Nat × Nat × NewsDB :=
  match storeOneAttempt ev db a with
  | Except.ok r => r
  | Except.error StoreError.integrity => (0, 1, db)
  | Except.error StoreError.other => (0, 0, db)

/-- The loop of `NewsService._process_and_store`: fold the per-candidate
step over the list, accumulating `(inserted_count, skipped_count, db)`. -/
def processAndStoreCounts (ev : StoreOracle) :
    List Article → NewsDB → Nat × Nat × NewsDB
  | [], db => (0, 0, db)
  | a :: rest, db =>
    let step := handleStoreOne ev db a
    let tail := processAndStoreCounts ev rest step.2.2
    (step.1 + tail.1, step.2.1 + tail.2.1, tail.2.2)

/-- Per-candidate branch taken inside `_process_and_store`. -/
inductive Outcome where
  | insertedNew
  | existSkip
  | integritySkip
  | droppedOther
deriving Repr, DecidableEq

/-- Trace of the branches the candidates take, in order. -/
def processTrace (ev : StoreOracle) :
    List Article → NewsDB → List Outcome
  | [], _ => []
  | a :: rest, db =>
    match storeOneAttempt ev db a with
    | Except.ok (_, 0, db1) => Outcome.insertedNew :: processTrace ev rest db1
    | Except.ok (_, _, db1) => Outcome.existSkip :: processTrace ev rest db1
    | Except.error StoreError.integrity => Outcome.integritySkip :: processTrace ev rest db
    | Except.error StoreError.other => Outcome.droppedOther :: processTrace ev rest db

/-- Result dictionary of the fetch-news operation.  `skipped` is `none` when
the returned dictionary has no `"skipped"` key at all. -/
structure FetchResult where
  success : Bool
  message : String
  inserted : Nat
  skipped : Option Nat
  total_fetched : Nat
deriving Repr, DecidableEq

/-- `NewsService._process_and_store`: run the loop and build the result
dictionary (`success`, `message`, `inserted`, `skipped`, `total_fetched`). -/
def processAndStore (ev : StoreOracle) (articles : List Article) (db : NewsDB) :
    FetchResult × NewsDB :=
  let r := processAndStoreCounts ev articles db
  ({ success := true
     message := "Fetched and stored " ++ toString r.1 ++ " new articles"
     inserted := r.1
     skipped := some r.2.1
     total_fetched := articles.length }, r.2.2)

/-- Oracle of an uncontended run: every `create` succeeds. -/
def evAllOk : StoreOracle := fun _ => StoreEvent.ok

/-- Oracle under which every `create` raises `IntegrityError`. -/
def evAllIntegrity : StoreOracle := fun _ => StoreEvent.integrityError

/-- Oracle under which every `create` raises a non-integrity exception. -/
def evAllOther : StoreOracle := fun _ => StoreEvent.otherError

/-- A sample article used in concrete witnesses. -/
def articleA : Article :=
  { title := "Copper rallies"
    description := "Copper prices rose."
    url := "https://example.com/copper"
    source := "Reuters"
    published_at := 100 }

/-- A second sample article with a distinct url. -/
def articleB : Article :=
  { title := "Steel falls"
    description := "Steel prices fell."
    url := "https://example.com/steel"
    source := "MINING.com"
    published_at := 200 }

-- Basic bookkeeping lemmas about the store loop.

theorem urlExists_iff (db : NewsDB) (u : String) :
    urlExists db u = true ↔ u ∈ urlsOf db := by
  simp [urlExists, urlsOf, List.any_eq_true, List.mem_map]

theorem processAndStoreCounts_nil (ev : StoreOracle) (db : NewsDB) :
    processAndStoreCounts ev [] db = (0, 0, db) := rfl

theorem processAndStoreCounts_cons (ev : StoreOracle) (a : Article)
    (rest : List Article) (db : NewsDB) :
    processAndStoreCounts ev (a :: rest) db =
      let step := handleStoreOne ev db a
      let tail := processAndStoreCounts ev rest step.2.2
      (step.1 + tail.1, step.2.1 + tail.2.1, tail.2.2) := rfl

/-- Each candidate contributes exactly one of: an insert, an existence or
integrity skip, or an other-error drop; hence the two counters plus the
dropped candidates account for the whole list. -/
theorem counts_drop_length (ev : StoreOracle) :
    ∀ (arts : List Article) (db : NewsDB),
      (processAndStoreCounts ev arts db).1 +
        (processAndStoreCounts ev arts db).2.1 +
        (processTrace ev arts db).count Outcome.droppedOther = arts.length := by
  intro arts
  induction arts with
  | nil => intro db; simp [processAndStoreCounts, processTrace]
  | cons a rest ih =>
    intro db
    cases hx : urlExists db a.url with
    | true =>
      have h := ih db
      simp [processAndStoreCounts, processTrace, handleStoreOne, storeOneAttempt,
        hx, List.count_cons]
      omega
    | false =>
      cases hev : ev a with
      | ok =>
        have h := ih (db ++ [a])
        simp [processAndStoreCounts, processTrace, handleStoreOne, storeOneAttempt,
          hx, hev, List.count_cons]
        omega
      | integrityError =>
        have h := ih db
        simp [processAndStoreCounts, processTrace, handleStoreOne, storeOneAttempt,
          hx, hev, List.count_cons]
        omega
      | otherError =>
        have h := ih db
        simp [processAndStoreCounts, processTrace, handleStoreOne, storeOneAttempt,
          hx, hev, List.count_cons]
        omega

/-- C1: a candidate whose `create` raises a uniqueness (`IntegrityError`)
violation is counted as skipped (skipped goes up by one, inserted and the
database are untouched), and the violation is never propagated: the
operation still returns a `success = true` result rather than an error. -/
theorem integrity_violation_counted_skipped (ev : StoreOracle) (db : NewsDB)
    (a : Article) (rest : List Article)
    (h : storeOneAttempt ev db a = Except.error StoreError.integrity) :
    processAndStoreCounts ev (a :: rest) db =
      ((processAndStoreCounts ev rest db).1,
       (processAndStoreCounts ev rest db).2.1 + 1,
       (processAndStoreCounts ev rest db).2.2) ∧
    (processAndStore ev (a :: rest) db).1.success = true := by
  constructor
  · simp [processAndStoreCounts, handleStoreOne, h, Nat.add_comm]
  · rfl

/-- Witness for C1 at a concrete input: one candidate, oracle that raises
`IntegrityError`, empty database. -/
theorem integrity_violation_counted_skipped_witness :
    processAndStoreCounts evAllIntegrity ([articleA] : List Article) [] =
      ((processAndStoreCounts evAllIntegrity [] []).1,
       (processAndStoreCounts evAllIntegrity [] []).2.1 + 1,
       (processAndStoreCounts evAllIntegrity [] []).2.2) ∧
    (processAndStore evAllIntegrity ([articleA] : List Article) []).1.success = true :=
  integrity_violation_counted_skipped evAllIntegrity [] articleA [] rfl

/-- C2 counterexample: a single candidate whose `create` raises a
non-integrity storage error is dropped without touching either counter, so
`inserted + skipped = 0 ≠ 1 = total_fetched`. -/
theorem counts_sum_counterexample :
    ¬ ((processAndStore evAllOther [articleA] []).1.inserted +
        ((processAndStore evAllOther [articleA] []).1.skipped.getD 0) =
        (processAndStore evAllOther [articleA] []).1.total_fetched) := by
  decide

/-- C2 (amended): `inserted + skipped + (candidates dropped by the
other-storage-error branch) = total_fetched`; in particular the claimed
equality `inserted + skipped = total_fetched` holds exactly when no
candidate takes the other-error branch. -/
theorem counts_sum_with_dropped (ev : StoreOracle) (articles : List Article)
    (db : NewsDB) :
    (processAndStore ev articles db).1.inserted +
      ((processAndStore ev articles db).1.skipped.getD 0) +
      (processTrace ev articles db).count Outcome.droppedOther =
      (processAndStore ev articles db).1.total_fetched := by
  simpa [processAndStore] using counts_drop_length ev articles db

/-- Outcome of `NewsService._fetch_rss_feed` for one configured search term
as observed by the orchestrator loop: either the call raised (an
`RSSFeedError` on transport failure — caught, logged, the term contributes
nothing) or it returned a list of candidate articles. -/
inductive TermFetch where
  | failure
  | fetched (articles : List Article)
deriving Repr, DecidableEq

/-- The `all_articles` accumulator of `NewsService.fetch_and_store_news`:
failed terms are skipped (`except ... continue`), fetched lists are
`extend`ed in order. -/
def mergedArticles (terms : List TermFetch) : List Article :=
  terms.foldl
    (fun acc t =>
      match t with
      | TermFetch.failure => acc
      | TermFetch.fetched l => acc ++ l)
    []

/-- One step of the Python dict comprehension
`{article["url"]: article for article in all_articles}`: a repeated url
overwrites the stored article in place (last wins, first-seen position),
a new url is appended. -/
def upsertByUrl (acc : List Article) (a : Article) : List Article :=
  if urlExists acc a.url then
    acc.map (fun b => if b.url == a.url then a else b)
  else
    acc ++ [a]

/-- `list({article["url"]: article for article in all_articles}.values())`. -/
def dedupByUrl (l : List Article) : List Article := l.foldl upsertByUrl []

/-- The early-return dictionary of `fetch_and_store_news` when no articles
were fetched from any feed; note it carries no `"skipped"` key. -/
def noNewArticlesResult : FetchResult :=
  { success := true
    message := "No new articles found"
    inserted := 0
    skipped := none
    total_fetched := 0 }

/-- `NewsService.fetch_and_store_news`: iterate the configured search terms
(each term's transport failure is caught and contributes nothing), early
return when nothing was fetched, otherwise deduplicate by url and delegate
to `_process_and_store`. -/
def fetchAndStoreNews (ev : StoreOracle) (terms : List TermFetch) (db : NewsDB) :
    FetchResult × NewsDB :=
  let all := mergedArticles terms
  if all.isEmpty then
    (noNewArticlesResult, db)
  else
    processAndStore ev (dedupByUrl all) db

theorem urlsOf_append (db1 db2 : NewsDB) :
    urlsOf (db1 ++ db2) = urlsOf db1 ++ urlsOf db2 := by
  simp [urlsOf]

theorem urlsOf_upsertByUrl (acc : List Article) (a : Article) :
    urlsOf (upsertByUrl acc a) =
      if urlExists acc a.url then urlsOf acc else urlsOf acc ++ [a.url] := by
  unfold upsertByUrl
  cases h : urlExists acc a.url with
  | true =>
    simp only [urlsOf, List.map_map, if_true]
    refine List.map_congr_left ?_
    intro b _
    by_cases hb : b.url = a.url
    · simp [Function.comp, hb]
    · simp [Function.comp, hb]
  | false => simp [urlsOf]

theorem nodup_urls_foldl_upsert :
    ∀ (l : List Article) (acc : List Article),
      (urlsOf acc).Nodup → (urlsOf (l.foldl upsertByUrl acc)).Nodup := by
  intro l
  induction l with
  | nil => intro acc h; simpa using h
  | cons a rest ih =>
    intro acc h
    simp only [List.foldl_cons]
    refine ih (upsertByUrl acc a) ?_
    rw [urlsOf_upsertByUrl]
    cases hx : urlExists acc a.url with
    | true => simpa using h
    | false =>
      have hnotin : a.url ∉ urlsOf acc := by
        intro hmem
        rw [← urlExists_iff] at hmem
        simp [hx] at hmem
      simp [List.nodup_append, h, hnotin]

/-- The urls of the deduplicated candidate list are pairwise distinct. -/
theorem dedupByUrl_urls_nodup (l : List Article) :
    (urlsOf (dedupByUrl l)).Nodup :=
  nodup_urls_foldl_upsert l [] (by simp [urlsOf])

/-- The store loop never removes a row: persisted urls are preserved. -/
theorem counts_db_monotone (ev : StoreOracle) :
    ∀ (arts : List Article) (db : NewsDB) (u : String),
      u ∈ urlsOf db → u ∈ urlsOf (processAndStoreCounts ev arts db).2.2 := by
  intro arts
  induction arts with
  | nil => intro db u h; simpa [processAndStoreCounts] using h
  | cons a rest ih =>
    intro db u h
    simp only [processAndStoreCounts]
    refine ih _ u ?_
    unfold handleStoreOne storeOneAttempt
    cases hx : urlExists db a.url with
    | true => simpa using h
    | false =>
      cases hev : ev a with
      | ok => simp [urlsOf_append]; left; simpa [urlsOf] using h
      | integrityError => simpa using h
      | otherError => simpa using h

/-- In an uncontended run every processed candidate's url is persisted
afterwards (it either already existed or was inserted). -/
theorem counts_all_present (ev : StoreOracle) (hev : ∀ a, ev a = StoreEvent.ok) :
    ∀ (arts : List Article) (db : NewsDB) (a : Article),
      a ∈ arts → a.url ∈ urlsOf (processAndStoreCounts ev arts db).2.2 := by
  intro arts
  induction arts with
  | nil => intro db a h; simp at h
  | cons b rest ih =>
    intro db a h
    rcases List.mem_cons.mp h with hab | hmem
    · subst hab
      simp only [processAndStoreCounts]
      unfold handleStoreOne storeOneAttempt
      cases hx : urlExists db a.url with
      | true =>
        refine counts_db_monotone ev rest db a.url ?_
        rw [← urlExists_iff]; exact hx
      | false =>
        rw [hev a]
        refine counts_db_monotone ev rest (db ++ [a]) a.url ?_
        simp [urlsOf_append, urlsOf]
    · exact ih _ a hmem

/-- When every candidate's url is already persisted, the loop skips them
all: nothing is inserted, everything is counted skipped, the database is
unchanged. -/
theorem counts_all_skip (ev : StoreOracle) :
    ∀ (arts : List Article) (db : NewsDB),
      (∀ a ∈ arts, a.url ∈ urlsOf db) →
      processAndStoreCounts ev arts db = (0, arts.length, db) := by
  intro arts
  induction arts with
  | nil => intro db _; rfl
  | cons a rest ih =>
    intro db h
    have hx : urlExists db a.url = true := by
      rw [urlExists_iff]; exact h a (List.mem_cons_self a rest)
    have htail := ih db (fun b hb => h b (List.mem_cons_of_mem a hb))
    simp [processAndStoreCounts, handleStoreOne, storeOneAttempt, hx, htail,
      Nat.add_comm]

/-- In an uncontended run over pairwise-distinct fresh urls, every candidate
is inserted exactly once, in order. -/
theorem counts_all_insert (ev : StoreOracle) (hev : ∀ a, ev a = StoreEvent.ok) :
    ∀ (arts : List Article) (db : NewsDB),
      (urlsOf arts).Nodup →
      (∀ a ∈ arts, a.url ∉ urlsOf db) →
      processAndStoreCounts ev arts db = (arts.length, 0, db ++ arts) := by
  intro arts
  induction arts with
  | nil => intro db _ _; simp [processAndStoreCounts]
  | cons a rest ih =>
    intro db hnd hfresh
    have hx : urlExists db a.url = false := by
      cases hx : urlExists db a.url with
      | false => rfl
      | true =>
        exact absurd ((urlExists_iff db a.url).mp hx)
          (hfresh a (List.mem_cons_self a rest))
    have hnd2 : (List.map Article.url (a :: rest)).Nodup := by
      simpa [urlsOf] using hnd
    rw [List.map_cons, List.nodup_cons] at hnd2
    have hnd' : (urlsOf rest).Nodup := by simpa [urlsOf] using hnd2.2
    have hnota : ∀ b ∈ rest, b.url ≠ a.url := by
      intro b hb hba
      exact hnd2.1 (by simpa [hba] using List.mem_map_of_mem Article.url hb)
    have hfresh' : ∀ b ∈ rest, b.url ∉ urlsOf (db ++ [a]) := by
      intro b hb
      rw [urlsOf_append]
      intro hmem
      rcases List.mem_append.mp hmem with hl | hr
      · exact hfresh b (List.mem_cons_of_mem a hb) hl
      · exact hnota b hb (by simpa [urlsOf] using hr)
    have htail := ih (db ++ [a]) hnd' hfresh'
    simp [processAndStoreCounts, handleStoreOne, storeOneAttempt, hx, hev a,
      htail, Nat.add_comm]

theorem isEmpty_eq_false_of_ne {α : Type} {l : List α} (h : l ≠ []) :
    l.isEmpty = false := by
  cases l with
  | nil => exact absurd rfl h
  | cons a t => rfl

/-- C3: invoking the orchestrator twice on an identical source payload whose
deduplicated urls are fresh for the initial database inserts each
distinct-url article exactly once in the first run; the second run inserts
nothing, classifies every candidate (all previously-seen urls) as skipped,
and leaves the database unchanged. -/
theorem fetch_orchestrator_idempotent (terms : List TermFetch) (db0 : NewsDB)
    (hne : mergedArticles terms ≠ [])
    (hfresh : ∀ a ∈ dedupByUrl (mergedArticles terms), a.url ∉ urlsOf db0) :
    (fetchAndStoreNews evAllOk terms db0).1.inserted
        = (dedupByUrl (mergedArticles terms)).length ∧
    (fetchAndStoreNews evAllOk terms
        (fetchAndStoreNews evAllOk terms db0).2).1.inserted = 0 ∧
    (fetchAndStoreNews evAllOk terms
        (fetchAndStoreNews evAllOk terms db0).2).1.skipped
      = some (fetchAndStoreNews evAllOk terms
          (fetchAndStoreNews evAllOk terms db0).2).1.total_fetched ∧
    (fetchAndStoreNews evAllOk terms
        (fetchAndStoreNews evAllOk terms db0).2).2
      = (fetchAndStoreNews evAllOk terms db0).2 := by
  have hie := isEmpty_eq_false_of_ne hne
  have hok : ∀ a, evAllOk a = StoreEvent.ok := fun _ => rfl
  have c1 := counts_all_insert evAllOk hok (dedupByUrl (mergedArticles terms))
    db0 (dedupByUrl_urls_nodup (mergedArticles terms)) hfresh
  have hdb1 : (fetchAndStoreNews evAllOk terms db0).2
      = db0 ++ dedupByUrl (mergedArticles terms) := by
    simp [fetchAndStoreNews, hie, processAndStore, c1]
  have h2 : ∀ a ∈ dedupByUrl (mergedArticles terms),
      a.url ∈ urlsOf (db0 ++ dedupByUrl (mergedArticles terms)) := by
    intro a ha
    rw [urlsOf_append]
    exact List.mem_append.mpr (Or.inr (List.mem_map_of_mem Article.url ha))
  have c2 := counts_all_skip evAllOk (dedupByUrl (mergedArticles terms))
    (db0 ++ dedupByUrl (mergedArticles terms)) h2
  refine ⟨?_, ?_, ?_, ?_⟩ <;>
    simp [fetchAndStoreNews, hie, processAndStore, hdb1, c1, c2]

/-- A concrete two-article payload used by the idempotence witness. -/
def termsTwoArticles : List TermFetch := [TermFetch.fetched [articleA, articleB]]

/-- Witness for C3 at a concrete input: two distinct-url articles, empty
initial database. -/
theorem fetch_orchestrator_idempotent_witness :
    (fetchAndStoreNews evAllOk termsTwoArticles []).1.inserted
        = (dedupByUrl (mergedArticles termsTwoArticles)).length ∧
    (fetchAndStoreNews evAllOk termsTwoArticles
        (fetchAndStoreNews evAllOk termsTwoArticles []).2).1.inserted = 0 ∧
    (fetchAndStoreNews evAllOk termsTwoArticles
        (fetchAndStoreNews evAllOk termsTwoArticles []).2).1.skipped
      = some (fetchAndStoreNews evAllOk termsTwoArticles
          (fetchAndStoreNews evAllOk termsTwoArticles []).2).1.total_fetched ∧
    (fetchAndStoreNews evAllOk termsTwoArticles
        (fetchAndStoreNews evAllOk termsTwoArticles []).2).2
      = (fetchAndStoreNews evAllOk termsTwoArticles []).2 :=
  fetch_orchestrator_idempotent termsTwoArticles [] (by decide) (by decide)

/-- Shape of the manual-trigger HTTP response (`FetchMetalNewsView.post`). -/
structure ViewResponse where
  status : Nat
  success : Bool
deriving Repr, DecidableEq

/-- `FetchMetalNewsView.post`: call `fetch_and_store_news`; when the service
returns normally the serialized result is sent with HTTP 200
(`FetchNewsResponseSerializer` marks `skipped` optional, so validation
passes).  The `except RSSFeedError` / `except Exception` branches answering
HTTP 500 with `success = false` fire only when the service raises — which
its own per-term handler prevents for transport failures. -/
def fetchMetalNewsViewPost (ev : StoreOracle) (terms : List TermFetch)
    (db : NewsDB) : ViewResponse × FetchResult × NewsDB :=
  let r := fetchAndStoreNews ev terms db
  ({ status := 200, success := r.1.success }, r.1, r.2)

theorem mergedArticles_all_failure :
    ∀ (terms : List TermFetch), (∀ t ∈ terms, t = TermFetch.failure) →
      mergedArticles terms = [] := by
  have aux : ∀ (terms : List TermFetch) (acc : List Article),
      (∀ t ∈ terms, t = TermFetch.failure) →
      terms.foldl
        (fun acc t =>
          match t with
          | TermFetch.failure => acc
          | TermFetch.fetched l => acc ++ l) acc = acc := by
    intro terms
    induction terms with
    | nil => intro acc _; rfl
    | cons t rest ih =>
      intro acc h
      have ht := h t (List.mem_cons_self t rest)
      subst ht
      exact ih acc (fun u hu => h u (List.mem_cons_of_mem _ hu))
  intro terms h
  exact aux terms [] h

/-- C5 counterexample: with every configured search term's request failing
transport-wise, the manual trigger answers HTTP 200 with the success
early-return result ("No new articles found"), not a non-success error
result. -/
theorem all_terms_transport_failure_counterex :
    (fetchMetalNewsViewPost evAllOk [TermFetch.failure, TermFetch.failure] []).1
      = { status := 200, success := true } ∧
    (fetchMetalNewsViewPost evAllOk [TermFetch.failure, TermFetch.failure] []).2.1
      = noNewArticlesResult :=
  ⟨rfl, rfl⟩

/-- C5 (amended): a per-term transport failure is caught inside
`fetch_and_store_news` and that term contributes nothing; consequently when
every configured search term's network request fails transport-wise the
manual trigger returns a success result — HTTP 200, `success = true`,
`inserted = 0`, `total_fetched = 0`, message "No new articles found" — and
the non-success error response would require the service itself to raise,
which the per-term handler prevents. -/
theorem all_terms_transport_failure_success (ev : StoreOracle)
    (terms : List TermFetch) (db : NewsDB)
    (hall : ∀ t ∈ terms, t = TermFetch.failure) :
    fetchMetalNewsViewPost ev terms db
      = ({ status := 200, success := true }, noNewArticlesResult, db) := by
  have hmerge := mergedArticles_all_failure terms hall
  simp [fetchMetalNewsViewPost, fetchAndStoreNews, hmerge, noNewArticlesResult]

/-- Witness for C5 (amended) at a concrete input: one failing term. -/
theorem all_terms_transport_failure_success_witness :
    fetchMetalNewsViewPost evAllOk [TermFetch.failure] []
      = ({ status := 200, success := true }, noNewArticlesResult, []) :=
  all_terms_transport_failure_success evAllOk [TermFetch.failure] [] (by decide)

/-- C8 counterexample: when zero articles survive merging, the result
dictionary of the fetch-news operation has no `"skipped"` key (modelled as
`skipped = none`), so it does not contain all five claimed fields — even
though it is a success with `inserted = 0` and `total_fetched = 0`. -/
theorem fetch_empty_missing_skipped_counterex :
    (fetchAndStoreNews evAllOk [TermFetch.fetched []] []).1.skipped = none ∧
    (fetchAndStoreNews evAllOk [TermFetch.fetched []] []).1.success = true ∧
    (fetchAndStoreNews evAllOk [TermFetch.fetched []] []).1.inserted = 0 ∧
    (fetchAndStoreNews evAllOk [TermFetch.fetched []] []).1.total_fetched = 0 :=
  ⟨rfl, rfl, rfl, rfl⟩

/-- C8 (amended): every fetch-news result carries `success`, `message`,
`inserted` and `total_fetched` and has `success = true`; the store path
additionally carries `skipped`, while the zero-survivors early return omits
`skipped` and reports `inserted = 0`, `total_fetched = 0` — a success, not
an error. -/
theorem fetch_result_shape (ev : StoreOracle) (terms : List TermFetch)
    (db : NewsDB) :
    (mergedArticles terms = [] →
        (fetchAndStoreNews ev terms db).1 = noNewArticlesResult) ∧
    (mergedArticles terms ≠ [] →
        ∃ s, (fetchAndStoreNews ev terms db).1.skipped = some s) ∧
    (fetchAndStoreNews ev terms db).1.success = true := by
  refine ⟨?_, ?_, ?_⟩
  · intro h
    simp [fetchAndStoreNews, h]
  · intro h
    have hie := isEmpty_eq_false_of_ne h
    simp [fetchAndStoreNews, hie, processAndStore]
  · by_cases h : mergedArticles terms = []
    · simp [fetchAndStoreNews, h, noNewArticlesResult]
    · have hie := isEmpty_eq_false_of_ne h
      simp [fetchAndStoreNews, hie, processAndStore]

/-- Witness for C8 (amended) at concrete inputs: a one-article payload takes
the store path (a `skipped` key is present), an empty-surviving payload
takes the early return. -/
theorem fetch_result_shape_witness :
    (∃ s, (fetchAndStoreNews evAllOk [TermFetch.fetched [articleA]] []).1.skipped
      = some s) ∧
    (fetchAndStoreNews evAllOk [TermFetch.fetched []] []).1 = noNewArticlesResult :=
  ⟨(fetch_result_shape evAllOk [TermFetch.fetched [articleA]] []).2.1 (by decide),
   (fetch_result_shape evAllOk [TermFetch.fetched []] []).1 (by decide)⟩

/-- One insertion step of sorting by publication time descending, modelling
the ordering contract of `order_by("-published_at")`. -/
def insertByPublished (a : Article) : List Article → List Article
  | [] => [a]
  | b :: l =>
    if a.published_at ≤ b.published_at then b :: insertByPublished a l
    else a :: b :: l

/-- `order_by("-published_at")`: the rows sorted by publication time
descending. -/
def orderByPublishedDesc (l : List Article) : List Article :=
  l.foldr insertByPublished []

/-- `NewsService.get_news_by_source`:
`MetalNews.objects.filter(source=source).order_by("-published_at")` — a
case-sensitive equality filter on the source column. -/
def get_news_by_source (db : NewsDB) (source : String) : List Article :=
  orderByPublishedDesc (db.filter (fun a => a.source == source))

/-- Case folding of a string, character by character. -/
def lowerChars (s : String) : List Char := s.data.map Char.toLower

/-- The by-source filter as the spec words it (case-insensitive exact
match, i.e. equality after case folding), for comparison with the code's
definition. -/
def getNewsBySourceInsensitiveSpec (db : NewsDB) (source : String) :
    List Article :=
  orderByPublishedDesc
    (db.filter (fun a => lowerChars a.source == lowerChars source))

theorem insertByPublished_perm (a : Article) :
    ∀ l : List Article, (insertByPublished a l).Perm (a :: l) := by
  intro l
  induction l with
  | nil => rfl
  | cons b l ih =>
    unfold insertByPublished
    by_cases h : a.published_at ≤ b.published_at
    · simp only [if_pos h]
      exact ((ih.cons b).trans (List.Perm.swap a b l))
    · simp only [if_neg h]
      exact List.Perm.refl _

theorem orderByPublishedDesc_perm :
    ∀ l : List Article, (orderByPublishedDesc l).Perm l := by
  intro l
  induction l with
  | nil => exact List.Perm.refl _
  | cons a l ih =>
    exact (insertByPublished_perm a (orderByPublishedDesc l)).trans (ih.cons a)

theorem insertByPublished_pairwise (a : Article) :
    ∀ l : List Article,
      l.Pairwise (fun x y => y.published_at ≤ x.published_at) →
      (insertByPublished a l).Pairwise
        (fun x y => y.published_at ≤ x.published_at) := by
  intro l
  induction l with
  | nil => intro _; simp [insertByPublished]
  | cons b l ih =>
    intro h
    rw [List.pairwise_cons] at h
    unfold insertByPublished
    by_cases hc : a.published_at ≤ b.published_at
    · rw [if_pos hc]
      rw [List.pairwise_cons]
      constructor
      · intro x hx
        rcases List.mem_cons.mp
            ((insertByPublished_perm a l).mem_iff.mp hx) with hxa | hxl
        · exact hxa ▸ hc
        · exact h.1 x hxl
      · exact ih h.2
    · rw [if_neg hc]
      rw [List.pairwise_cons]
      constructor
      · intro x hx
        rcases List.mem_cons.mp hx with hxb | hxl
        · exact hxb ▸ le_of_lt (lt_of_not_le hc)
        · exact le_trans (h.1 x hxl) (le_of_lt (lt_of_not_le hc))
      · exact List.pairwise_cons.mpr h

theorem orderByPublishedDesc_pairwise :
    ∀ l : List Article,
      (orderByPublishedDesc l).Pairwise
        (fun x y => y.published_at ≤ x.published_at) := by
  intro l
  induction l with
  | nil => simp [orderByPublishedDesc]
  | cons a l ih => exact insertByPublished_pairwise a (orderByPublishedDesc l) ih

/-- C9 counterexample: with one stored article from source "Reuters", the
query for "reuters" returns nothing under the code's filter, while the
claimed case-insensitive exact match would return the article. -/
theorem get_news_by_source_case_counterex :
    get_news_by_source [articleA] "reuters" = [] ∧
    getNewsBySourceInsensitiveSpec [articleA] "reuters" = [articleA] := by
  refine ⟨rfl, by decide⟩

/-- C9 (amended): the by-source query returns exactly the articles whose
source equals the given string under case-SENSITIVE exact-match comparison
(not substring matching and not case-insensitive equality), ordered by
publish time descending. -/
theorem get_news_by_source_spec (db : NewsDB) (s : String) :
    (∀ a, a ∈ get_news_by_source db s ↔ (a ∈ db ∧ a.source = s)) ∧
    (get_news_by_source db s).Pairwise
      (fun x y => y.published_at ≤ x.published_at) := by
  constructor
  · intro a
    unfold get_news_by_source
    rw [List.Perm.mem_iff (orderByPublishedDesc_perm _)]
    simp [List.mem_filter]
  · exact orderByPublishedDesc_pairwise _

/-- A weighted full-text search vector: the text indexed at weight A
(highest), weight B (medium) and weight C (lowest). -/
structure SearchVec where
  weightA : String
  weightB : String
  weightC : String
deriving Repr, DecidableEq

/-- A persisted `MetalNews` row as the search-indexing signal sees it:
content fields plus the nullable `search_vector` column. -/
structure NewsRow where
  title : String
  description : String
  source : String
  search_vector : Option SearchVec
deriving Repr, DecidableEq

/-- `SearchVector("title", weight="A") + SearchVector("description",
weight="B") + SearchVector("source", weight="C")` evaluated on a row: the
weighted vector built from the row's current content fields. -/
def computeSearchVector (r : NewsRow) : SearchVec :=
  { weightA := r.title
    weightB := r.description
    weightC := r.source }

/-- The `update_search_vector` post_save receiver of `metal_news.signals`:
if `update_fields` was passed and contains `"search_vector"`, return without
recomputing; otherwise persist the vector recomputed from the row's current
fields (a queryset `update`, which fires no further signals). -/
def update_search_vector (update_fields : Option (List String))
    (r : NewsRow) : NewsRow :=
  if (update_fields.getD []).contains "search_vector" then r
  else { r with search_vector := some (computeSearchVector r) }

/-- A `save()` of a `MetalNews` instance: the caller's field assignments are
already applied in `r`; Django then fires post_save with the given
`update_fields`, running `update_search_vector`. -/
def saveNews (r : NewsRow) (update_fields : Option (List String)) : NewsRow :=
  update_search_vector update_fields r

/-- A row whose stored vector is stale with respect to its title. -/
def staleRow : NewsRow :=
  { title := "New title"
    description := "Body"
    source := "Reuters"
    search_vector := some
      { weightA := "Old title", weightB := "Body", weightC := "Reuters" } }

/-- C6 counterexample: a save with `update_fields = ["title",
"search_vector"]` touches the content field `title`, yet the handler skips
recomputation (it bails whenever `"search_vector"` is among the update
fields), leaving the persisted vector stale. -/
theorem search_vector_mixed_update_counterex :
    (saveNews staleRow (some ["title", "search_vector"])).search_vector
      ≠ some (computeSearchVector staleRow) := by decide

/-- C6 (amended): recomputation is keyed on `update_fields` alone: a save
whose `update_fields` does not contain the search-vector field — full saves
and content-only update-field saves included — persists the vector
recomputed from the row's current title (weight A, highest), description
(weight B, medium) and source (weight C, lowest); a save whose
`update_fields` contains `"search_vector"`, even alongside content fields,
and in particular one touching only the search-vector field, leaves the row
untouched and does not retrigger recomputation. -/
theorem search_vector_recompute_spec (r : NewsRow)
    (uf : Option (List String)) :
    ("search_vector" ∈ uf.getD [] → saveNews r uf = r) ∧
    ("search_vector" ∉ uf.getD [] →
      (saveNews r uf).search_vector = some (computeSearchVector r) ∧
      (computeSearchVector r).weightA = r.title ∧
      (computeSearchVector r).weightB = r.description ∧
      (computeSearchVector r).weightC = r.source) := by
  constructor
  · intro h
    have hc : (uf.getD []).contains "search_vector" = true := by simpa using h
    unfold saveNews update_search_vector
    rw [if_pos hc]
  · intro h
    have hc : (uf.getD []).contains "search_vector" = false := by simpa using h
    unfold saveNews update_search_vector
    rw [if_neg (by simpa using h)]
    exact ⟨rfl, rfl, rfl, rfl⟩

/-- Witness for C6 (amended) at concrete inputs: a vector-only save leaves
the stale row untouched; a full save recomputes the vector. -/
theorem search_vector_recompute_spec_witness :
    saveNews staleRow (some ["search_vector"]) = staleRow ∧
    (saveNews staleRow none).search_vector
      = some (computeSearchVector staleRow) :=
  ⟨(search_vector_recompute_spec staleRow (some ["search_vector"])).1
      (by decide),
   ((search_vector_recompute_spec staleRow none).2 (by decide)).1⟩

/-- One point of a payload item's historical price list; the transformation
reads only its `"priceNormalised"` key, whose absence makes the
transformation raise (`KeyError`). -/
structure PriceEntry where
  priceNormalised : Option Rat
deriving Repr, DecidableEq

/-- One raw item of the external price API payload
(`MetalPriceService._process_and_store` input).  `none` models an absent
key. -/
structure PriceItem where
  material : Option String
  prices : Option (List PriceEntry)
  chartIndicator : Option Rat
  indicatorOne : Option Rat
  indicatorTwo : Option Rat
  indicatorThree : Option Rat
  lastDate : Option Int
deriving Repr, DecidableEq

/-- A persisted `MetalPrice` row as built by the transformation. -/
structure MetalPriceRow where
  symbol : String
  name : String
  price_usd : Rat
  unit : String
  indicator_one : Rat
  indicator_two : Rat
  indicator_three : Rat
  chart_indicator : Rat
  last_date : Option Rat
  price_history : List PriceEntry
  fetched_at : Nat
deriving Repr, DecidableEq

/-- The one way the transformation of an item can raise in the model:
a non-empty price list whose last element has no `"priceNormalised"`. -/
inductive TransformError where
  | missingPriceNormalised
deriving Repr, DecidableEq

/-- `last_date` conversion: `datetime.fromtimestamp(last_date_ts / 1000)`
guarded by Python truthiness (`None` and `0` both yield a null value). -/
def lastDateOf (lastDate : Option Int) : Option Rat :=
  match lastDate with
  | none => none
  | some ts => if ts == 0 then none else some ((ts : Rat) / 1000)

/-- The body of the per-item loop of `MetalPriceService._process_and_store`:
skip items whose `"material"` is absent or falsy; take the current price
from `prices[-1]["priceNormalised"]`, falling back to `chartIndicator`
(default 0) when the list is empty; absent numeric fields default to 0
(`Decimal(str(...))` conversions are value-preserving in the model). -/
def transformItem (fetched_at : Nat) (it : PriceItem) :
    Except TransformError (Option MetalPriceRow) :=
  match it.material with
  | none => Except.ok none
  | some m =>
    if m == "" then Except.ok none
    else
      let prices := it.prices.getD []
      let mkRow : Rat → MetalPriceRow := fun latest =>
        { symbol := m
          name := m
          price_usd := latest
          unit := "normalized"
          indicator_one := it.indicatorOne.getD 0
          indicator_two := it.indicatorTwo.getD 0
          indicator_three := it.indicatorThree.getD 0
          chart_indicator := it.chartIndicator.getD 0
          last_date := lastDateOf it.lastDate
          price_history := prices
          fetched_at := fetched_at }
      match prices.getLast? with
      | some e =>
        match e.priceNormalised with
        | none => Except.error TransformError.missingPriceNormalised
        | some v => Except.ok (some (mkRow v))
      | none => Except.ok (some (mkRow (it.chartIndicator.getD 0)))

/-- The `for metal_data in data` loop: build `prices_to_create` in payload
order; the first transformation failure escapes the loop (and, through
`@transaction.atomic`, aborts the call before `bulk_create` runs). -/
def buildRows (fetched_at : Nat) :
    List PriceItem → Except TransformError (List MetalPriceRow)
  | [] => Except.ok []
  | it :: rest =>
    match transformItem fetched_at it with
    | Except.error e => Except.error e
    | Except.ok none => buildRows fetched_at rest
    | Except.ok (some row) =>
      match buildRows fetched_at rest with
      | Except.error e => Except.error e
      | Except.ok rows => Except.ok (row :: rows)

/-- Per-symbol summary appended for each created row. -/
structure PriceSummary where
  symbol : String
  chart_indicator : Rat
  indicator_one : Rat
  price_history_count : Nat
deriving Repr, DecidableEq

/-- Result dictionary of `MetalPriceService._process_and_store`. -/
structure PriceResult where
  success : Bool
  message : String
  inserted : Nat
  fetched_at : Nat
  prices : List PriceSummary
deriving Repr, DecidableEq

/-- The summary entry built alongside each row of the batch. -/
def mkSummary (r : MetalPriceRow) : PriceSummary :=
  { symbol := r.symbol
    chart_indicator := r.chart_indicator
    indicator_one := r.indicator_one
    price_history_count := r.price_history.length }

/-- `MetalPriceService._process_and_store` under `@transaction.atomic`:
`fetched_at = timezone.now()` is sampled once at entry (the `now`
parameter); items are transformed in order; on success the whole batch is
`bulk_create`d, on a transformation failure the transaction rolls back and
the store is left untouched. -/
def priceProcessAndStore (now : Nat) (data : List PriceItem)
    (db : List MetalPriceRow) :
    Except TransformError PriceResult × List MetalPriceRow :=
  match buildRows now data with
  | Except.error e => (Except.error e, db)
  | Except.ok rows =>
    (Except.ok
      { success := true
        message := "Fetched and stored " ++ toString rows.length ++ " metal prices"
        inserted := rows.length
        fetched_at := now
        prices := rows.map mkSummary }, db ++ rows)

/-- A row built by `transformItem` carries the `fetched_at` value the call
was given. -/
theorem transformItem_fetched_at (now : Nat) (it : PriceItem)
    (row : MetalPriceRow)
    (h : transformItem now it = Except.ok (some row)) :
    row.fetched_at = now := by
  unfold transformItem at h
  split at h
  · simp at h
  · split at h
    · simp at h
    · dsimp only at h
      split at h
      · split at h
        · simp at h
        · have hr := h
          simp only [Except.ok.injEq, Option.some.injEq] at hr
          rw [← hr]
      · have hr := h
        simp only [Except.ok.injEq, Option.some.injEq] at hr
        rw [← hr]

/-- Every row a successful transformation produces carries the single
`fetched_at` value sampled at the start of the call. -/
theorem buildRows_fetched_at (now : Nat) :
    ∀ (data : List PriceItem) (rows : List MetalPriceRow),
      buildRows now data = Except.ok rows →
      ∀ row ∈ rows, row.fetched_at = now := by
  intro data
  induction data with
  | nil =>
    intro rows h row hrow
    simp [buildRows] at h
    subst h
    simp at hrow
  | cons it rest ih =>
    intro rows h row hrow
    unfold buildRows at h
    cases ht : transformItem now it with
    | error e => rw [ht] at h; exact absurd h (by simp)
    | ok o =>
      rw [ht] at h
      cases o with
      | none => exact ih rows h row hrow
      | some r0 =>
        simp only [] at h
        cases hb : buildRows now rest with
        | error e => rw [hb] at h; exact absurd h (by simp)
        | ok rows0 =>
          rw [hb] at h
          have hr : r0 :: rows0 = rows := by simpa using h
          subst hr
          rcases List.mem_cons.mp hrow with hr0 | hmem
          · subst hr0
            exact transformItem_fetched_at now it row ht
          · exact ih rows0 hb row hmem

/-- C4: storing a price batch is atomic and batch-uniform: if transforming
any item raises before storage the call returns the error and no rows of
the batch are persisted (the store is exactly as before); on success the
returned `fetched_at` and every persisted row of the call carry the single
timestamp sampled once at the start of processing. -/
theorem price_batch_atomic_uniform (now : Nat) (data : List PriceItem)
    (db : List MetalPriceRow) :
    (∀ e, (priceProcessAndStore now data db).1 = Except.error e →
        (priceProcessAndStore now data db).2 = db) ∧
    (∀ r, (priceProcessAndStore now data db).1 = Except.ok r →
        r.fetched_at = now) ∧
    (∀ row ∈ (priceProcessAndStore now data db).2.drop db.length,
        row.fetched_at = now) := by
  unfold priceProcessAndStore
  cases hb : buildRows now data with
  | error e =>
    refine ⟨fun e' _ => rfl, ?_, ?_⟩
    · intro r h
      simp at h
    · intro row hrow
      rw [List.drop_length] at hrow
      simp at hrow
  | ok rows =>
    refine ⟨?_, ?_, ?_⟩
    · intro e' h
      simp at h
    · intro r h
      simp only [Except.ok.injEq] at h
      rw [← h]
    · intro row hrow
      rw [List.drop_left] at hrow
      exact buildRows_fetched_at now data rows hb row hrow

/-- A payload item whose transformation raises: non-empty price list, last
element without `"priceNormalised"`. -/
def badPriceItem : PriceItem :=
  { material := some "Tense"
    prices := some [{ priceNormalised := none }]
    chartIndicator := none
    indicatorOne := none
    indicatorTwo := none
    indicatorThree := none
    lastDate := none }

/-- A well-formed payload item. -/
def goodPriceItem : PriceItem :=
  { material := some "Tense"
    prices := some [{ priceNormalised := some 2 }]
    chartIndicator := none
    indicatorOne := none
    indicatorTwo := none
    indicatorThree := none
    lastDate := none }

/-- The row `goodPriceItem` transforms to at `fetched_at = 7`. -/
def goodPriceRow : MetalPriceRow :=
  { symbol := "Tense"
    name := "Tense"
    price_usd := 2
    unit := "normalized"
    indicator_one := 0
    indicator_two := 0
    indicator_three := 0
    chart_indicator := 0
    last_date := none
    price_history := [{ priceNormalised := some 2 }]
    fetched_at := 7 }

/-- Witness for C4 at concrete inputs: a batch whose second item fails to
transform persists nothing; the single row of a successful batch carries
the batch timestamp. -/
theorem price_batch_atomic_uniform_witness :
    (priceProcessAndStore 7 [goodPriceItem, badPriceItem] []).2 = [] ∧
    goodPriceRow.fetched_at = 7 :=
  ⟨(price_batch_atomic_uniform 7 [goodPriceItem, badPriceItem] []).1
      TransformError.missingPriceNormalised rfl,
   (price_batch_atomic_uniform 7 [goodPriceItem] []).2.2 goodPriceRow
      (by decide)⟩

/-- C7: for every payload item carrying a (truthy) material identifier that
transforms to a row, the stored `price_usd` is the `priceNormalised` of the
last element of the item's prices list, or the item's `chartIndicator`
value (default 0) when that list is empty or absent; numeric indicator
fields absent from the item are stored as zero. -/
theorem price_usd_selection (now : Nat) (it : PriceItem)
    (row : MetalPriceRow)
    (h : transformItem now it = Except.ok (some row)) :
    (∀ e v, (it.prices.getD []).getLast? = some e →
        e.priceNormalised = some v → row.price_usd = v) ∧
    (it.prices.getD [] = [] → row.price_usd = it.chartIndicator.getD 0) ∧
    (it.indicatorOne = none → row.indicator_one = 0) ∧
    (it.indicatorTwo = none → row.indicator_two = 0) ∧
    (it.indicatorThree = none → row.indicator_three = 0) ∧
    (it.chartIndicator = none → row.chart_indicator = 0) := by
  unfold transformItem at h
  split at h
  · simp at h
  · split at h
    · simp at h
    · dsimp only at h
      split at h
      · rename_i e0 hlast
        split at h
        · simp at h
        · rename_i v0 hpn
          have hr := h
          simp only [Except.ok.injEq, Option.some.injEq] at hr
          refine ⟨?_, ?_, ?_, ?_, ?_, ?_⟩
          · intro e v hl hv
            rw [hlast] at hl
            injection hl with he
            rw [← he] at hv
            rw [hpn] at hv
            injection hv with hv0
            rw [← hr, ← hv0]
          · intro hempty
            rw [hempty] at hlast
            simp at hlast
          · intro hnone; rw [← hr]; simp [hnone]
          · intro hnone; rw [← hr]; simp [hnone]
          · intro hnone; rw [← hr]; simp [hnone]
          · intro hnone; rw [← hr]; simp [hnone]
      · rename_i hlast
        have hr := h
        simp only [Except.ok.injEq, Option.some.injEq] at hr
        refine ⟨?_, ?_, ?_, ?_, ?_, ?_⟩
        · intro e v hl hv
          rw [hlast] at hl
          simp at hl
        · intro _; rw [← hr]
        · intro hnone; rw [← hr]; simp [hnone]
        · intro hnone; rw [← hr]; simp [hnone]
        · intro hnone; rw [← hr]; simp [hnone]
        · intro hnone; rw [← hr]; simp [hnone]

/-- A payload item with an empty price list and an explicit chart
indicator. -/
def chartOnlyPriceItem : PriceItem :=
  { material := some "Gold"
    prices := none
    chartIndicator := some 5
    indicatorOne := some 3
    indicatorTwo := none
    indicatorThree := none
    lastDate := none }

/-- The row `chartOnlyPriceItem` transforms to at `fetched_at = 7`. -/
def chartOnlyPriceRow : MetalPriceRow :=
  { symbol := "Gold"
    name := "Gold"
    price_usd := 5
    unit := "normalized"
    indicator_one := 3
    indicator_two := 0
    indicator_three := 0
    chart_indicator := 5
    last_date := none
    price_history := []
    fetched_at := 7 }

/-- Witness for C7 at concrete inputs: a non-empty price list yields its
last `priceNormalised`; an absent price list falls back to the chart
indicator. -/
theorem price_usd_selection_witness :
    goodPriceRow.price_usd = 2 ∧
    chartOnlyPriceRow.price_usd = chartOnlyPriceItem.chartIndicator.getD 0 :=
  ⟨(price_usd_selection 7 goodPriceItem goodPriceRow rfl).1
      { priceNormalised := some 2 } 2 rfl rfl,
   ((price_usd_selection 7 chartOnlyPriceItem chartOnlyPriceRow rfl).2).1 rfl⟩

/-- The `"source"` sub-dictionary of a feed entry. -/
structure SourceObj where
  title : Option String
deriving Repr, DecidableEq

/-- One parsed feed entry as `NewsService._fetch_rss_feed` reads it: every
key may be absent (`none`).  The timestamp fields stand for
`published_parsed` / `updated_parsed`, absent-or-falsy collapsed to
`none`. -/
structure FeedEntry where
  title : Option String
  summary : Option String
  link : Option String
  source : Option SourceObj
  published_parsed : Option Int
  updated_parsed : Option Int
deriving Repr, DecidableEq

/-- The per-entry body of `_fetch_rss_feed`: publication time falls back
from `published_parsed` to `updated_parsed` to `timezone.now()` (the `now`
parameter); `entry.get` defaults title to "No title", summary to "",
link to "" and source title to "Google News"; an entry whose resulting url
is empty is discarded (`if not article["url"]: continue`). -/
def entryToArticle (now : Int) (e : FeedEntry) : Option Article :=
  let published_at :=
    match e.published_parsed with
    | some t => t
    | none =>
      match e.updated_parsed with
      | some t => t
      | none => now
  let article : Article :=
    { title := e.title.getD "No title"
      description := e.summary.getD ""
      url := e.link.getD ""
      source := (e.source.getD { title := none }).title.getD "Google News"
      published_at := published_at }
  if article.url == "" then none else some article

/-- The entry loop of `_fetch_rss_feed`: truncate to the fetch limit
(`feed.entries[:self.fetch_limit]`) and keep the entries that survive. -/
def fetchRSSFeedArticles (fetch_limit : Nat) (now : Int)
    (entries : List FeedEntry) : List Article :=
  (entries.take fetch_limit).filterMap (entryToArticle now)

/-- An entry whose title key is present but empty. -/
def emptyTitleEntry : FeedEntry :=
  { title := some ""
    summary := none
    link := some "https://news.example.com/a"
    source := none
    published_parsed := some 50
    updated_parsed := none }

/-- C10 counterexample: an entry with a present-but-empty title and a valid
link is kept, and its candidate's title is the empty string — so not every
returned candidate has a non-empty title. -/
theorem adapter_nonempty_title_counterex :
    ¬ (∀ a ∈ fetchRSSFeedArticles 50 0 [emptyTitleEntry],
        a.title ≠ "" ∧ a.source ≠ "" ∧ a.url ≠ "") := by decide

/-- C10 (amended): the adapter defaults missing fields rather than
rejecting them — a missing title becomes "No title", a missing summary the
empty string, a missing source title "Google News" — and an entry is
discarded exactly when its link is missing or empty, so every returned
candidate has a non-empty url; but a present-yet-empty title or source
title is carried through as empty, so titles and sources are non-empty only
when defaulted or non-empty in the entry. -/
theorem adapter_defaults_spec (now : Int) (fetch_limit : Nat)
    (entries : List FeedEntry) :
    (∀ a ∈ fetchRSSFeedArticles fetch_limit now entries, a.url ≠ "") ∧
    (∀ e ∈ entries,
      (entryToArticle now e = none ↔ e.link.getD "" = "") ∧
      (∀ a, entryToArticle now e = some a →
        a.url = e.link.getD "" ∧
        a.title = e.title.getD "No title" ∧
        a.description = e.summary.getD "" ∧
        a.source = (e.source.getD { title := none }).title.getD "Google News")) := by
  have key : ∀ e : FeedEntry,
      (entryToArticle now e = none ↔ e.link.getD "" = "") ∧
      (∀ a, entryToArticle now e = some a →
        a.url = e.link.getD "" ∧
        a.title = e.title.getD "No title" ∧
        a.description = e.summary.getD "" ∧
        a.source = (e.source.getD { title := none }).title.getD "Google News") := by
    intro e
    unfold entryToArticle
    dsimp only
    by_cases hu : e.link.getD "" = ""
    · rw [if_pos (by simpa using hu)]
      constructor
      · simp [hu]
      · intro a ha
        simp at ha
    · rw [if_neg (by simpa using hu)]
      constructor
      · simp [hu]
      · intro a ha
        have := (Option.some.injEq _ _).mp ha
        rw [← this]
        exact ⟨rfl, rfl, rfl, rfl⟩
  constructor
  · intro a ha
    rcases List.mem_filterMap.mp ha with ⟨e, _, hfe⟩
    have := ((key e).2 a hfe).1
    intro hempty
    rw [hempty] at this
    exact absurd ((key e).1.mpr this.symm) (by simp [hfe])
  · intro e _
    exact key e

/-- An entry with every optional field missing except a valid link. -/
def defaultedEntry : FeedEntry :=
  { title := none
    summary := none
    link := some "https://news.example.com/b"
    source := none
    published_parsed := none
    updated_parsed := none }

/-- The candidate `defaultedEntry` yields at `now = 0`. -/
def defaultedArticle : Article :=
  { title := "No title"
    description := ""
    url := "https://news.example.com/b"
    source := "Google News"
    published_at := 0 }

/-- Witness for C10 (amended) at a concrete input: the fully-defaulted
entry survives with a non-empty url and the defaulted title. -/
theorem adapter_defaults_spec_witness :
    defaultedArticle.url ≠ "" ∧
    defaultedArticle.title = defaultedEntry.title.getD "No title" :=
  ⟨(adapter_defaults_spec 0 50 [defaultedEntry]).1 defaultedArticle (by decide),
   (((adapter_defaults_spec 0 50 [defaultedEntry]).2 defaultedEntry
      (by decide)).2 defaultedArticle rfl).2.1⟩
